import Mathlib

/-!
Shallow embedding of the 4-step MDM requirements processing pipeline
of execute_4step_process.py: the requirement-classification and
consolidation engine (step 1 and step 2) and the model-assembly entry
contract (step 3), together with theorems settling the specification
claims about template selection, classification precedence, fallback
behaviour, traceability invariants, deduplication, term retention,
downstream contract enforcement, determinism, and attribute keying.

Text is modelled as lists of characters.  The few regular-expression
searches of the source are modelled by executable search functions
specialised to the exact patterns appearing in the code.
-/

set_option maxRecDepth 10000

abbrev Text := List Char

/-- Model of the regex word-character class (ASCII fragment, as used in
the requirement texts handled by this pipeline). -/
def wordChar (c : Char) : Bool := c.isAlphanum || c = '_'

/-- Model of the regex class of uppercase letters A-Z. -/
def isUpperChar (c : Char) : Bool := 'A' ≤ c && c ≤ 'Z'

/-- Model of the regex class of lowercase letters a-z. -/
def isLowerChar (c : Char) : Bool := 'a' ≤ c && c ≤ 'z'

/-- Model of the regex whitespace class. -/
def isSpaceChar (c : Char) : Bool := c.isWhitespace

/-- Model of the Python str.lower method on ASCII text. -/
def lowerText (s : Text) : Text := s.map Char.toLower

/-- Model of the Python str.strip method. -/
def pyStrip (s : Text) : Text :=
  ((s.dropWhile isSpaceChar).reverse.dropWhile isSpaceChar).reverse

/-- Model of a space-separated Python str.join. -/
def joinSpace (ts : List Text) : Text := List.intercalate [' '] ts

/-- Decimal rendering of a natural number as text. -/
def natText (n : Nat) : Text := (toString n).data

/-- Model of the Python substring containment test (needle in haystack). -/
def containsSub (s w : Text) : Bool := s.tails.any (fun t => w.isPrefixOf t)

/-- Model of the Python str.find method, restricted to the situation in
which the needle occurs in the haystack (the only situation in which the
source consults it: the call is guarded by a containment test). -/
def findSub (s w : Text) : Nat :=
  (((List.range (s.length + 1)).find? (fun i => w.isPrefixOf (s.drop i))).getD s.length)

/-- Deduplication keeping the first occurrence of each element, the key
order of a Python Counter or dict built by insertion; the first argument
accumulates the elements already seen. -/
def firstDedupAux : List Text → List Text → List Text
  | _, [] => []
  | seen, x :: xs =>
    if x ∈ seen then firstDedupAux seen xs
    else x :: firstDedupAux (x :: seen) xs

/-- Deduplication keeping the first occurrence of each element. -/
def firstDedup (l : List Text) : List Text := firstDedupAux [] l

/-- Model of the Python str.replace method (all occurrences, scanning
left to right), with explicit fuel; every replacement or skip consumes
at least one character, so fuel equal to the text length suffices.  All
uses in this development have a non-empty pattern. -/
def pyReplaceFuel (old new : Text) : Nat → Text → Text
  | _, [] => []
  | 0, s => s
  | fuel + 1, c :: cs =>
    if old ≠ [] ∧ old.isPrefixOf (c :: cs) then
      new ++ pyReplaceFuel old new fuel ((c :: cs).drop old.length)
    else
      c :: pyReplaceFuel old new fuel cs

/-- Model of the Python str.replace method. -/
def pyReplace (s : Text) (old new : Text) : Text :=
  pyReplaceFuel old new s.length s

/-- Helper for pyTitle: the boolean records whether the previous
character was alphabetic. -/
def pyTitleAux : Bool → Text → Text
  | _, [] => []
  | prevAlpha, c :: cs =>
    (if c.isAlpha then (if prevAlpha then c.toLower else c.toUpper) else c)
      :: pyTitleAux c.isAlpha cs

/-- Model of the Python str.title method on ASCII text. -/
def pyTitle (s : Text) : Text := pyTitleAux false s

/-- There is a word boundary between the end of a match and the given
remaining text when the remaining text is empty or starts with a
non-word character. -/
def afterBoundary : Text → Bool
  | [] => true
  | c :: _ => !wordChar c

/-- Does one of the alternatives occur at the very start of the text,
followed by a word boundary? -/
def cueAtStart (alts : List Text) (s : Text) : Bool :=
  alts.any (fun a => a.isPrefixOf s && afterBoundary (s.drop a.length))

/-- Model of re.search for a pattern of the shape
boundary-(alternatives)-boundary: scans every position of the text, the
boolean records whether the previous character was a word character. -/
def searchCueAux (alts : List Text) : Bool → Text → Bool
  | _, [] => false
  | prevW, c :: cs =>
    ((!prevW) && cueAtStart alts (c :: cs)) || searchCueAux alts (wordChar c) cs

/-- Search for a word-boundary-delimited alternative anywhere in the text. -/
def searchCue (alts : List Text) (s : Text) : Bool := searchCueAux alts false s

/-- Does the whole text belong to the language spaces-star,
word-characters-star, spaces-star? -/
def inSWS (u : Text) : Bool :=
  ((u.dropWhile isSpaceChar).dropWhile wordChar).all isSpaceChar

/-- After the mandatory first whitespace of the gap, the rest of the gap
is spaces-star word-characters-star spaces-star, followed by the literal
term. -/
def swsThenTerm (term : Text) (t : Text) : Bool :=
  (List.range (t.length + 1)).any
    (fun i => inSWS (t.take i) && term.isPrefixOf (t.drop i))

/-- The gap of the patterns boundary-(alternatives)-whitespace-plus,
word-characters-star, whitespace-star, literal term: one mandatory
whitespace character then the residual gap then the term. -/
def gapThenTerm (term : Text) : Text → Bool
  | [] => false
  | c :: cs => isSpaceChar c && swsThenTerm term cs

/-- Model of re.search for the two patterns of the classifier that read
boundary-(alternatives)-gap-term, where the gap is whitespace-plus,
word-characters-star, whitespace-star. -/
def searchCueGapTermAux (alts : List Text) (term : Text) : Bool → Text → Bool
  | _, [] => false
  | prevW, c :: cs =>
    ((!prevW) && alts.any
        (fun a => a.isPrefixOf (c :: cs) && gapThenTerm term ((c :: cs).drop a.length)))
      || searchCueGapTermAux alts term (wordChar c) cs

/-- Search anywhere in the text for an alternative followed by the gap
and the literal term. -/
def searchCueGapTerm (alts : List Text) (term : Text) (s : Text) : Bool :=
  searchCueGapTermAux alts term false s

/-- Model of re.findall for the capitalized-word pattern
boundary-uppercase-lowercase-plus-boundary: each position that starts a
match emits the matched word; the boolean records whether the previous
character was a word character.  For this pattern matches can never
overlap, so position-wise scanning coincides with the non-overlapping
scan of re.findall. -/
def capWordsAux : Bool → Text → List Text
  | _, [] => []
  | prevW, c :: cs =>
    (if (!prevW) && isUpperChar c then
      (if (!(cs.takeWhile isLowerChar).isEmpty)
          && afterBoundary (cs.dropWhile isLowerChar) then
         [c :: cs.takeWhile isLowerChar]
       else [])
     else [])
      ++ capWordsAux (wordChar c) cs

/-- All capitalized words of a text, in scanning order, with multiplicity. -/
def capWords (s : Text) : List Text := capWordsAux false s

/-- Lookup in an association list by key, the model of a Python dict
indexing operation (dicts preserve insertion order; keys are unique). -/
def lookupT {β : Type} (m : List (Text × β)) (k : Text) : Option β :=
  (m.find? (fun p => p.1 = k)).map Prod.snd

/-! Static vocabularies of the source, verbatim. -/

/-- The exclude_words literal of step 1: common words that are not
entities. -/
def excludeWordsBase : List Text :=
  (["Solution", "System", "Data", "Record", "Information", "Field", "Attribute",
    "Value", "Type", "Status", "Date", "Number", "Code", "ID", "Key", "Source",
    "Target", "The", "This", "That", "These", "Those", "Each", "Every", "All",
    "Some", "Any", "Many", "More", "Most", "Such", "Which", "What", "When",
    "Where", "How", "Why", "Who", "Table", "Column", "Row", "Sheet", "File",
    "Document", "Report", "Format", "Structure", "Model", "Design", "Process",
    "Step", "Phase", "Feature", "Function", "Method", "Approach", "Integration"]
    : List String).map String.data

/-- The source_system_names literal of step 1: names of external data
sources, excluded from entity discovery. -/
def sourceSystemNames : List Text :=
  (["Banner", "Workday", "Slate", "Salesforce", "SFAQ", "AffinaQuest",
    "IAM", "SF-STU", "Slack", "Snowflake", "Azure", "Reference", "Use"]
    : List String).map String.data

/-- The combined exclusion set (the code folds the source-system names
into exclude_words with a set update). -/
def excludeWordsAll : List Text := excludeWordsBase ++ sourceSystemNames

/-- Alternatives of the multiplicity phrase of the field-group pattern. -/
def multiplicityWords : List Text :=
  (["multiple", "each", "per", "1-to-many", "one-to-many", "many"]
    : List String).map String.data

/-- Alternatives of the field-group cue checked in the 200-character
window before the term, and also the exact words of the final
field-group fallback rule. -/
def fieldGroupCueWords : List Text :=
  (["address", "phone", "email", "e-mail", "telephone", "contact"]
    : List String).map String.data

/-- Alternatives of the person context cue. -/
def personCueWords : List Text :=
  (["individual", "person", "people", "human", "citizen", "resident",
    "member", "participant"] : List String).map String.data

/-- Alternatives of the organization context cue. -/
def orgCueWords : List Text :=
  (["company", "organization", "organisation", "institution", "corp",
    "corporation", "business", "firm", "enterprise"] : List String).map String.data

/-- Alternatives of the product context cue. -/
def productCueWords : List Text :=
  (["product", "item", "goods", "merchandise", "commodity", "article", "sku"]
    : List String).map String.data

/-- Alternatives of the containment cue. -/
def containmentWords : List Text :=
  (["has", "have", "contains", "includes", "with"] : List String).map String.data

/-! Out-of-the-box entity and field-group definitions, verbatim. -/

/-- Standard fields of the OOTB Person entity. -/
def ootbPersonStandardFields : List Text :=
  (["FirstName", "LastName", "MiddleName", "NamePrefix", "NameSuffix",
    "FullName", "DateOfBirth", "Gender", "MaritalStatus",
    "SSN", "TaxID", "PreferredLanguage", "DeceasedDate", "DeceasedFlag"]
    : List String).map String.data

/-- Standard fields of the OOTB Organization entity. -/
def ootbOrganizationStandardFields : List Text :=
  (["OrganizationName", "LegalName", "DBA", "TaxID", "EIN",
    "OrganizationType", "Industry", "Status", "FoundedDate",
    "Website", "Description"] : List String).map String.data

/-- Standard fields of the OOTB Product entity. -/
def ootbProductStandardFields : List Text :=
  (["ProductName", "ProductCode", "SKU", "Description",
    "Category", "Brand", "Status", "Price", "UnitOfMeasure"]
    : List String).map String.data

/-- The OOTB field groups with their standard fields. -/
def ootbFieldGroups : List (Text × List Text) :=
  [("Address".data,
    (["AddressLine1", "AddressLine2", "City", "State", "PostalCode",
      "Country", "AddressType", "PrimaryFlag", "StartDate", "EndDate",
      "County", "Region", "Latitude", "Longitude"] : List String).map String.data),
   ("Phone".data,
    (["PhoneNumber", "PhoneType", "PrimaryFlag", "CountryCode",
      "AreaCode", "Extension", "StartDate", "EndDate", "DoNotCallFlag"]
      : List String).map String.data),
   ("Email".data,
    (["EmailAddress", "EmailType", "PrimaryFlag", "StartDate", "EndDate",
      "DoNotEmailFlag", "BounceFlag"] : List String).map String.data),
   ("Identifier".data,
    (["IdentifierValue", "IdentifierType", "PrimaryFlag", "Issuer",
      "StartDate", "EndDate", "VerificationStatus"] : List String).map String.data)]

/-! The requirement corpus. -/

/-- One input row of the Functional Requirements sheet.  The identifier
cell may be absent (none models a missing or NaN cell, for which the
code synthesizes a positional identifier). -/
structure Row where
  fr : Option Text
  description : Text
  comments : Text
deriving DecidableEq

/-- The per-row text used by the classifier and both extraction passes:
description, a space, comments, in original case and unstripped. -/
def combinedRowText (r : Row) : Text := r.description ++ ' ' :: r.comments

/-- The original-case concatenation of all requirement text. -/
def allTextOriginal (rows : List Row) : Text := joinSpace (rows.map combinedRowText)

/-- One normalized functional requirement record. -/
structure FR where
  fr_number : Text
  description : Text
  comments : Text
  combined_text : Text
deriving DecidableEq

/-- Building one functional requirement record from an input row: the
identifier is stripped, or synthesized positionally when absent, and the
combined text is the lowercase stripped description and comments. -/
def mkFR (idx : Nat) (r : Row) : FR :=
  let num := match r.fr with
    | some v => pyStrip v
    | none => "FR".data ++ natText (idx + 1)
  let d := pyStrip r.description
  let c := pyStrip r.comments
  { fr_number := num, description := d, comments := c,
    combined_text := lowerText (d ++ ' ' :: c) }

/-- The normalized requirement corpus, in row order. -/
def functionalRequirements (rows : List Row) : List FR :=
  (rows.enum.map (fun p => mkFR p.1 p.2))

/-! The contextual classifier. -/

/-- Semantic roles assigned to discovered candidate terms. -/
inductive EntityType
  | Person
  | Organization
  | Product
  | FieldGroup
  | CustomFieldGroup
deriving DecidableEq

/-- Canonical names of the master entity types, as used by the code for
retained master entities. -/
def etName : EntityType → Text
  | .Person => "Person".data
  | .Organization => "Organization".data
  | .Product => "Product".data
  | .FieldGroup => "FieldGroup".data
  | .CustomFieldGroup => "CustomFieldGroup".data

/-- Is the type one of the three master entity types? -/
def isMasterType (t : EntityType) : Bool :=
  t = .Person || t = .Organization || t = .Product

/-- The per-row classification of a term (already lowercased): the rules
of the classifier in their if-elif order.  The result is none when the
row does not contain the term or no rule fires on the row. -/
def rowRule (wl : Text) (r : Row) : Option EntityType :=
  let tl := lowerText (combinedRowText r)
  if containsSub tl wl then
    if searchCueGapTerm multiplicityWords wl tl then
      some (if searchCue fieldGroupCueWords (tl.take (findSub tl wl + 200)) then
              .FieldGroup
            else .CustomFieldGroup)
    else if searchCue personCueWords tl then some .Person
    else if searchCue orgCueWords tl then some .Organization
    else if searchCue productCueWords tl then some .Product
    else if searchCueGapTerm containmentWords wl tl then some .CustomFieldGroup
    else none
  else none

/-- The row-by-row accumulation of the classifier: each row on which a
rule fires overwrites the accumulated role. -/
def classifyFold (rows : List Row) (wl : Text) : Option EntityType :=
  rows.foldl (fun acc r => (rowRule wl r).or acc) none

/-- The final role of a term: the accumulated role over all rows, else
the field-group fallback for the exact field-group words, else Person. -/
def classifyTerm (rows : List Row) (w : Text) : EntityType :=
  match classifyFold rows (lowerText w) with
  | some t => t
  | none =>
    if lowerText w ∈ fieldGroupCueWords then .FieldGroup else .Person

/-- The context excerpts accumulated for a term: for every row that
contains the term, the first 200 characters of the row text are appended
when the lowercased row text is not already an element. -/
def contextFold (rows : List Row) (wl : Text) : List Text :=
  rows.foldl (fun ctx r =>
    let text := combinedRowText r
    let tl := lowerText text
    if containsSub tl wl then
      (if tl ∈ ctx then ctx else ctx ++ [text.take 200])
    else ctx) []

/-- The information recorded for a retained candidate term. -/
structure EInfo where
  type : EntityType
  context : Text
  frequency : Nat
deriving DecidableEq

/-- The candidate words with their occurrence counts, in first-occurrence
order, the model of Counter(capitalized_words).items(). -/
def wordCounts (rows : List Row) : List (Text × Nat) :=
  let ws := capWords (allTextOriginal rows)
  (firstDedup ws).map (fun w => (w, ws.count w))

/-- The retained candidate terms of a run with their classification,
context and frequency, in discovery order: the entities_found dict of
step 1. -/
def entitiesFound (rows : List Row) : List (Text × EInfo) :=
  let allLower := lowerText (allTextOriginal rows)
  (wordCounts rows).foldl (fun acc p =>
    if p.2 ≥ 3 ∧ p.1 ∉ excludeWordsAll then
      if containsSub allLower (lowerText p.1) then
        acc ++ [(p.1,
          { type := classifyTerm rows p.1,
            context := joinSpace ((contextFold rows (lowerText p.1)).take 3),
            frequency := p.2 })]
      else acc
    else acc) []

/-! Building the business-entity list of step 1. -/

/-- A discovered business entity. -/
structure BusinessEntity where
  name : Text
  type : EntityType
  purpose : Text
deriving DecidableEq

/-- The purpose text inferred for a retained entity: the (possibly
truncated) context when present, else a canned description. -/
def mkPurpose (canonicalName : Text) (t : EntityType) (ctx : Text) : Text :=
  if ctx ≠ [] then
    (if ctx.length > 150 then ctx.take 150 ++ "...".data else ctx)
  else if isMasterType t then
    canonicalName ++ " master entity in MDM model".data
  else
    canonicalName ++ " field group".data

/-- The entity built from a candidate of master type: the canonical
type name replaces the discovered word. -/
def mkMasterEntity (c : Text × EInfo) : BusinessEntity :=
  { name := etName c.2.type, type := c.2.type,
    purpose := mkPurpose (etName c.2.type) c.2.type c.2.context }

/-- The entity built from a field-group candidate: the discovered word
is kept as the name. -/
def mkGroupEntity (c : Text × EInfo) : BusinessEntity :=
  { name := c.1, type := c.2.type, purpose := mkPurpose c.1 c.2.type c.2.context }

/-- The deduplication pass over the frequency-sorted candidates: at most
one entity is kept per master type, the first encountered; field-group
candidates are all kept. -/
def buildBusinessEntities : List (Text × EInfo) → List EntityType → List BusinessEntity
  | [], _ => []
  | c :: cs, seen =>
    if isMasterType c.2.type then
      (if c.2.type ∈ seen then buildBusinessEntities cs seen
       else mkMasterEntity c :: buildBusinessEntities cs (c.2.type :: seen))
    else mkGroupEntity c :: buildBusinessEntities cs seen

/-- The candidates sorted by descending frequency; the sort is stable,
as the Python sorted builtin is. -/
def sortCandidates (cands : List (Text × EInfo)) : List (Text × EInfo) :=
  List.insertionSort (fun a b => b.2.frequency ≤ a.2.frequency) cands

/-- The business-entities output of a run. -/
def businessEntitiesOf (rows : List Row) : List BusinessEntity :=
  buildBusinessEntities (sortCandidates (entitiesFound rows)) []

/-! The source-system pass of step 1. -/

/-- Configuration of one known external source system. -/
structure SourceCfg where
  connection_types : List Text
  keywords : List Text

/-- The known_sources table of step 1, verbatim. -/
def knownSources : List (Text × SourceCfg) :=
  [("Banner".data,
    ⟨(["JDBC", "jdbc"] : List String).map String.data,
     (["banner", "ellucian banner"] : List String).map String.data⟩),
   ("Workday".data,
    ⟨(["SOAP API", "SOAP", "soap"] : List String).map String.data,
     (["workday"] : List String).map String.data⟩),
   ("Slate".data,
    ⟨(["API", "api"] : List String).map String.data,
     (["slate"] : List String).map String.data⟩),
   ("Salesforce".data,
    ⟨(["API", "api"] : List String).map String.data,
     (["salesforce", "sf"] : List String).map String.data⟩),
   ("SFAQ".data,
    ⟨(["API", "api"] : List String).map String.data,
     (["sfaq", "affinaquest"] : List String).map String.data⟩),
   ("AffinaQuest".data,
    ⟨(["API", "api"] : List String).map String.data,
     (["affinaquest", "sfaq"] : List String).map String.data⟩),
   ("IAM".data,
    ⟨(["API", "Message Queue", "RabbitMQ"] : List String).map String.data,
     (["iam"] : List String).map String.data⟩),
   ("SF-STU".data,
    ⟨(["API", "api"] : List String).map String.data,
     (["sf-stu", "sfstu"] : List String).map String.data⟩),
   ("Slack".data,
    ⟨(["API", "api"] : List String).map String.data,
     (["slack"] : List String).map String.data⟩),
   ("Snowflake".data,
    ⟨(["Database", "database"] : List String).map String.data,
     (["snowflake"] : List String).map String.data⟩)]

/-- A registered source-system finding. -/
structure SourceSystem where
  name : Text
  connection : Text
  context : Text
deriving DecidableEq

/-- Registering the sources matched by one row: a source already present
is skipped; the connection is the first configured mode literally found
in the row text, else the first configured mode. -/
def sourceRowStep (acc : List SourceSystem) (r : Row) : List SourceSystem :=
  let combined := combinedRowText r
  knownSources.foldl (fun acc p =>
    if p.2.keywords.any (fun kw => containsSub (lowerText combined) (lowerText kw)) then
      (if acc.any (fun s => s.name = p.1) then acc
       else
        let conn :=
          ((p.2.connection_types.find?
              (fun ct => containsSub (lowerText combined) (lowerText ct))).getD
            (p.2.connection_types.headD []))
        acc ++ [{ name := p.1, connection := conn, context := combined.take 200 }])
    else acc) acc

/-- The source systems found across the corpus, in registration order. -/
def sourceSystemsOf (rows : List Row) : List SourceSystem :=
  rows.foldl sourceRowStep []

/-! The role pass of step 1. -/

/-- The role_keywords literal of step 1. -/
def roleKeywords : List Text :=
  (["student", "teacher", "staff", "manager", "employee", "contractor", "member",
    "customer", "supplier", "partner", "alumni", "donor", "prospect", "lead",
    "administrator", "user", "guest", "applicant"] : List String).map String.data

/-- A discovered role with its context excerpt. -/
structure RoleFound where
  name : Text
  context : Text
deriving DecidableEq

/-- Registering the role keywords matched by one row. -/
def roleRowStep (acc : List RoleFound) (r : Row) : List RoleFound :=
  let combined := lowerText r.description ++ ' ' :: lowerText r.comments
  roleKeywords.foldl (fun acc kw =>
    if containsSub combined kw ∧ ¬ acc.any (fun f => f.name = pyTitle kw) then
      acc ++ [{ name := pyTitle kw, context := combined.take 150 }]
    else acc) acc

/-- A role record of the step 1 output. -/
structure RoleOut where
  name : Text
  purpose : Text
deriving DecidableEq

/-- The roles output of step 1. -/
def rolesOf (rows : List Row) : List RoleOut :=
  (rows.foldl roleRowStep []).map
    (fun f => { name := f.name, purpose := f.context.take 100 ++ "...".data })

/-! The attribute pass of step 1. -/

/-- The attribute_keywords table of step 1, verbatim. -/
def attributeKeywords : List (Text × List Text) :=
  [("classification".data, (["classification", "classify"] : List String).map String.data),
   ("employmentstatus".data,
    (["full time", "part time", "employment status", "employment type", "temp",
      "temporary", "permanent"] : List String).map String.data),
   ("roletype".data, (["role type", "role", "roletype", "position"] : List String).map String.data),
   ("relationshiptype".data,
    (["relationship type", "relationship", "relationshiptype", "association"]
      : List String).map String.data),
   ("organizationname".data,
    (["organization name", "company name", "org name"] : List String).map String.data),
   ("legalname".data, (["legal name", "legal entity name"] : List String).map String.data),
   ("dba".data, (["dba", "doing business as", "trade name"] : List String).map String.data),
   ("ein".data, (["ein", "employer identification number"] : List String).map String.data),
   ("organizationtype".data,
    (["organization type", "org type", "entity type"] : List String).map String.data),
   ("industry".data, (["industry", "sector"] : List String).map String.data),
   ("website".data, (["website", "web site", "url"] : List String).map String.data),
   ("foundeddate".data,
    (["founded", "founded date", "established", "established date"]
      : List String).map String.data),
   ("description".data, (["description", "desc"] : List String).map String.data),
   ("status".data, (["status", "active", "inactive"] : List String).map String.data)]

/-- The display name of an attribute key, as computed by the code. -/
def displayName (an : Text) : Text :=
  pyTitle (pyReplace (pyReplace an "type".data "Type".data) "status".data "Status".data)

/-- Ensure the key is present in the association list (Python: if the
key is absent, bind it to the empty list). -/
def ensureKey (m : List (Text × List Text)) (k : Text) : List (Text × List Text) :=
  if (lookupT m k).isNone then m ++ [(k, [])] else m

/-- Append a requirement identifier to the list bound to the key, when
it is not already present. -/
def appendFR (m : List (Text × List Text)) (k fr : Text) : List (Text × List Text) :=
  m.map (fun p => if p.1 = k then (p.1, if fr ∈ p.2 then p.2 else p.2 ++ [fr]) else p)

/-- The attribute scan of one requirement: for every attribute whose
keyword variants hit the combined text, the requirement identifier is
recorded under the display name of the attribute. -/
def attrStep (m : List (Text × List Text)) (fr : FR) : List (Text × List Text) :=
  attributeKeywords.foldl (fun m p =>
    if p.2.any (fun kw => containsSub fr.combined_text kw) then
      appendFR (ensureKey m (displayName p.1)) (displayName p.1) fr.fr_number
    else m) m

/-- The custom attributes with their justifying requirement identifiers,
accumulated over the whole corpus: the custom_attributes_with_fr dict. -/
def customAttributesWithFR (frs : List FR) : List (Text × List Text) :=
  frs.foldl attrStep []

/-- Lexicographic order on text by character code, the Python string
order used by sorted. -/
def textLe : Text → Text → Bool
  | [], _ => true
  | _ :: _, [] => false
  | c :: cs, d :: ds =>
    if c = d then textLe cs ds else decide (c < d)

/-- Sorting a list of texts lexicographically (stable, like the Python
sorted builtin; lexicographic order is total so stability is moot). -/
def sortTexts (ts : List Text) : List Text :=
  List.insertionSort (fun a b => textLe a b) ts

/-- The OOTB Person standard fields with the identity-sensitive fields
removed, used as the standard attribute list of step 1. -/
def ootbPersonAttributes : List Text :=
  ootbPersonStandardFields.filter (fun f => f ∉ [("SSN" : String).data, ("TaxID" : String).data])

/-! Assembling the step 1 output. -/

/-- The attribute record stored under the main entity name.  The
custom_with_fr component is optional because the consuming code of step
2 tests for its presence; step 1 always produces it. -/
structure AttrData where
  standard : List Text
  custom : List Text
  custom_with_fr : Option (List (Text × List Text))
deriving DecidableEq

/-- A matching or data-quality rule record (name and text). -/
structure RulePair where
  rule : Text
  body : Text
deriving DecidableEq

/-- The constant matching_rules list of step 1. -/
def matchingRules : List RulePair :=
  [⟨"Address matching".data,
    ("Match based on standardized address components; may use a unique key from the source system or a composite of address fields." : String).data⟩,
   ⟨"Phone matching".data,
    ("Match on normalized phone number (country and area code); uniqueness may vary based on business requirements." : String).data⟩,
   ⟨"Email matching".data,
    ("Match on lowercased, trimmed email address; not always unique depending on real-world usage." : String).data⟩,
   ⟨"Address crosswalk".data,
    ("Use reference/crosswalk tables to link and translate between keys of source and master addresses." : String).data⟩]

/-- The constant data_quality_rules list of step 1. -/
def dataQualityRules : List RulePair :=
  [⟨"Address standardization".data,
    ("Centralized standardization to uniform format" : String).data⟩,
   ⟨"Phone standardization".data,
    ("Centralized standardization to uniform format" : String).data⟩,
   ⟨"Lookup value mapping".data,
    ("Map source values to MDM values via reference data" : String).data⟩]

/-- The document produced by step 1. -/
structure Step1Output where
  extraction_date : Text
  total_requirements : Nat
  source_file : Text
  functional_requirements : List FR
  business_entities : List BusinessEntity
  attributes : List (Text × AttrData)
  relationships : List Text
  roles : List RoleOut
  source_systems : List SourceSystem
  matching_rules : List RulePair
  data_quality_rules : List RulePair
deriving DecidableEq

/-- The key of the attributes table: the name of the first discovered
Person-type entity, defaulting to Constituent. -/
def mainEntityName (be : List BusinessEntity) : Text :=
  ((be.find? (fun e => e.type = .Person)).map (fun e => e.name)).getD "Constituent".data

/-- Step 1: extract and analyze functional requirements.  The timestamp
parameter models datetime.now, the source-file parameter the input
path. -/
def step1 (sourceFile : Text) (now : Text) (rows : List Row) : Step1Output :=
  let frs := functionalRequirements rows
  let be := businessEntitiesOf rows
  let cam := customAttributesWithFR frs
  let sortedKeys := sortTexts (cam.map Prod.fst)
  { extraction_date := now,
    total_requirements := rows.length,
    source_file := sourceFile,
    functional_requirements := frs,
    business_entities := be,
    attributes :=
      [(mainEntityName be,
        { standard := ootbPersonAttributes,
          custom := sortedKeys,
          custom_with_fr := some (sortedKeys.map (fun k => (k, (lookupT cam k).getD []))) })],
    relationships := [],
    roles := rolesOf rows,
    source_systems := sourceSystemsOf rows,
    matching_rules := matchingRules,
    data_quality_rules := dataQualityRules }

/-! Step 2: mapping to OOTB entities. -/

/-- The consolidated entity mapping record of step 2. -/
structure EntityMapping where
  requirement : Text
  ootb_entity : EntityType
  justification : Text
  ootb_fields_used : List Text
  custom_fields_needed : List Text
  custom_fields_with_fr : List (Text × List Text)
  consolidated_requirements : List Text
deriving DecidableEq

/-- A field-group mapping record of step 2. -/
structure FGMapping where
  requirement : Text
  ootb_field_group : Text
  justification : Text
  ootb_fields_used : List Text
  custom_fields_needed : List Text
deriving DecidableEq

/-- Kinds of custom components of step 2. -/
inductive ComponentType
  | CustomEntity
  | CustomFieldGroup
deriving DecidableEq

/-- A custom component record of step 2. -/
structure CustomComponent where
  type : ComponentType
  name : Text
  justification : Text
  fields : List Text
deriving DecidableEq

/-- The document produced by step 2. -/
structure Step2Output where
  mapping_date : Text
  entity_mappings : List EntityMapping
  field_group_mappings : List FGMapping
  gaps : List Text
  custom_components : List CustomComponent
deriving DecidableEq

/-- The Person-type entity requirements of the step 1 output, in order. -/
def personReqsOf (s1 : Step1Output) : List BusinessEntity :=
  s1.business_entities.filter (fun e => e.type = .Person)

/-- The Organization-type entity requirements of the step 1 output. -/
def orgReqsOf (s1 : Step1Output) : List BusinessEntity :=
  s1.business_entities.filter (fun e => e.type = .Organization)

/-- The template-selection rule of step 2: Person when any Person
requirement exists or neither kind exists, else Organization when an
Organization requirement exists, else nothing. -/
def step2Selected (s1 : Step1Output) : Option EntityType :=
  if personReqsOf s1 ≠ [] ∨ (orgReqsOf s1 = [] ∧ personReqsOf s1 = []) then
    some .Person
  else if orgReqsOf s1 ≠ [] then some .Organization
  else none

/-- Update the binding of a key (Python dict assignment: replace when
present, append when absent). -/
def setAssoc (m : List (Text × List Text)) (k : Text) (v : List Text) :
    List (Text × List Text) :=
  if (lookupT m k).isNone then m ++ [(k, v)]
  else m.map (fun p => if p.1 = k then (p.1, v) else p)

/-- Merge the entries of a custom_with_fr table whose justification
list is non-empty. -/
def mergeCustomWithFR (m : List (Text × List Text)) (lst : List (Text × List Text)) :
    List (Text × List Text) :=
  lst.foldl (fun m p => if p.2 ≠ [] then setAssoc m p.1 p.2 else m) m

/-- The backward-compatibility fallback of the Person branch: fields of
the plain custom list are added with an empty justification list when
absent. -/
def fallbackCustom (m : List (Text × List Text)) (customList : List Text) :
    List (Text × List Text) :=
  customList.foldl (fun m f => if (lookupT m f).isNone then m ++ [(f, [])] else m) m

/-- Folding one OOTB field over the functional requirements: every
requirement whose combined text mentions the lowercased field name
appends its identifier (the field entry is created on first mention). -/
def fieldFRFold (frs : List FR) (m : List (Text × List Text)) (field : Text) :
    List (Text × List Text) :=
  frs.foldl (fun m fr =>
    if containsSub fr.combined_text (lowerText field) then
      appendFR (ensureKey m field) field fr.fr_number
    else m) m

/-- The per-Person-requirement accumulation of custom fields in the
Person branch. -/
def personBranchStep (s1 : Step1Output) (m : List (Text × List Text))
    (req : BusinessEntity) : List (Text × List Text) :=
  match lookupT s1.attributes req.name with
  | none => m
  | some ad =>
    match ad.custom_with_fr with
    | some lst => mergeCustomWithFR m lst
    | none => fallbackCustom m ad.custom

/-- The per-Organization-requirement accumulation in the Person branch:
justified custom attributes of the organization entity are merged, then
each Organization OOTB field outside the chosen base set is folded in
only where mentioned by a requirement. -/
def orgInPersonBranchStep (s1 : Step1Output) (allOotb : List Text)
    (m : List (Text × List Text)) (req : BusinessEntity) : List (Text × List Text) :=
  match lookupT s1.attributes req.name with
  | none => m
  | some ad =>
    let m1 := match ad.custom_with_fr with
      | some lst => mergeCustomWithFR m lst
      | none => m
    ootbOrganizationStandardFields.foldl (fun m f =>
      if f ∉ [("TaxID" : String).data] ∧ f ∉ allOotb then
        fieldFRFold s1.functional_requirements m f
      else m) m1

/-- The per-Organization-requirement accumulation in the Organization
branch: only the justified custom attributes are merged (this branch has
no backward-compatibility fallback). -/
def orgBranchStep (s1 : Step1Output) (m : List (Text × List Text))
    (req : BusinessEntity) : List (Text × List Text) :=
  match lookupT s1.attributes req.name with
  | none => m
  | some ad =>
    match ad.custom_with_fr with
    | some lst => mergeCustomWithFR m lst
    | none => m

/-- The OOTB base field set of the chosen template: Person minus the
identity-sensitive fields, or the Organization standard fields. -/
def step2OotbFields (t : EntityType) : List Text :=
  match t with
  | .Person =>
    ootbPersonStandardFields.filter
      (fun f => f ∉ [("SSN" : String).data, ("TaxID" : String).data])
  | .Organization => ootbOrganizationStandardFields
  | _ => []

/-- The custom-fields table of the chosen template. -/
def step2CustomWithFR (s1 : Step1Output) (t : EntityType) : List (Text × List Text) :=
  match t with
  | .Person =>
    let cf1 := (personReqsOf s1).foldl (personBranchStep s1) []
    if orgReqsOf s1 ≠ [] then
      (orgReqsOf s1).foldl (orgInPersonBranchStep s1 (step2OotbFields .Person)) cf1
    else cf1
  | .Organization =>
    let cf1 := (orgReqsOf s1).foldl (orgBranchStep s1) []
    if personReqsOf s1 ≠ [] then
      ootbPersonStandardFields.foldl (fun m f =>
        if f ∉ step2OotbFields .Organization then
          fieldFRFold s1.functional_requirements m f
        else m) cf1
    else cf1
  | _ => []

/-- The names of the requirements consolidated under the chosen
template, in consolidation order. -/
def consolidatedReqNames (s1 : Step1Output) (t : EntityType) : List Text :=
  match t with
  | .Person =>
    (personReqsOf s1).map (fun e => e.name)
      ++ (if orgReqsOf s1 ≠ [] then (orgReqsOf s1).map (fun e => e.name) else [])
  | .Organization =>
    (orgReqsOf s1).map (fun e => e.name)
      ++ (if personReqsOf s1 ≠ [] then (personReqsOf s1).map (fun e => e.name) else [])
  | _ => []

/-- The justification text of the consolidated mapping. -/
def mkJustification (t : EntityType) (names : List Text) : Text :=
  "Consolidated all requirements (".data ++ List.intercalate ", ".data names
    ++ ") into single OOTB ".data ++ etName t ++ " entity. ".data
    ++ ("Using OOTB entity to minimize customization and leverage standard MDM capabilities. " : String).data
    ++ ("Additional fields added as custom attributes only where OOTB fields cannot accommodate requirements and are justified by functional requirements." : String).data

/-- The consolidated entity mappings of step 2: one mapping when a
template was selected, none otherwise. -/
def step2EntityMappings (s1 : Step1Output) : List EntityMapping :=
  match step2Selected s1 with
  | some t =>
    [{ requirement := "Unified MDM Entity".data,
       ootb_entity := t,
       justification := mkJustification t (consolidatedReqNames s1 t),
       ootb_fields_used := step2OotbFields t,
       custom_fields_needed := (step2CustomWithFR s1 t).map Prod.fst,
       custom_fields_with_fr := step2CustomWithFR s1 t,
       consolidated_requirements := consolidatedReqNames s1 t }]
  | none => []

/-- The field-group mappings of step 2: one per discovered FieldGroup
entity whose name is an OOTB field group. -/
def step2FGMappings (s1 : Step1Output) : List FGMapping :=
  s1.business_entities.filterMap (fun e =>
    if e.type = .FieldGroup then
      match lookupT ootbFieldGroups e.name with
      | some fields =>
        some { requirement := e.name ++ " field group".data,
               ootb_field_group := e.name,
               justification := e.purpose,
               ootb_fields_used := fields,
               custom_fields_needed := ["SourceSystemKey".data] }
      | none => none
    else none)

/-- The fields inferred for a custom field group from its name. -/
def inferredCustomFGFields (n : Text) : List Text :=
  if lowerText n = "role".data then
    (["RoleType", "RoleStatus", "StartDate", "EndDate", "SourceSystem",
      "SourceSystemKey"] : List String).map String.data
  else if containsSub (lowerText n) "relationship".data then
    (["RelatedConstituentId", "RelationshipType", "StartDate", "EndDate",
      "SourceSystem", "SourceSystemKey"] : List String).map String.data
  else
    (["Type", "Status", "StartDate", "EndDate", "SourceSystem", "SourceSystemKey"]
      : List String).map String.data

/-- The custom components of step 2: the last-resort custom entity when
no template was selected, then one component per discovered
CustomFieldGroup entity. -/
def step2CustomComponents (s1 : Step1Output) : List CustomComponent :=
  (match step2Selected s1 with
   | none =>
     [{ type := .CustomEntity,
        name := "CustomMDMEntity".data,
        justification :=
          ("No OOTB entity could accommodate all requirements. Custom entity created as last resort." : String).data,
        fields := [] }]
   | some _ => [])
    ++ s1.business_entities.filterMap (fun e =>
        if e.type = .CustomFieldGroup then
          some { type := .CustomFieldGroup, name := e.name,
                 justification := e.purpose,
                 fields := inferredCustomFGFields e.name }
        else none)

/-- Step 2: map requirements to OOTB entities.  The timestamp parameter
models datetime.now. -/
def step2 (s1 : Step1Output) (now : Text) : Step2Output :=
  { mapping_date := now,
    entity_mappings := step2EntityMappings s1,
    field_group_mappings := step2FGMappings s1,
    gaps := [],
    custom_components := step2CustomComponents s1 }

/-! Step 3: hierarchical data model design (the part consuming the
consolidation output; its fatal contract check is the object of the
error-handling claim). -/

/-- A field group of the assembled model.  The custom field groups carry
no OOTB field list at all (none), matching the dictionary shape written
by the code. -/
structure FieldGroupOut where
  name : Text
  group_type : Text
  fields_ootb : Option (List Text)
  fields_custom : List Text
deriving DecidableEq

/-- The single assembled entity of the model. -/
structure Step3Entity where
  name : Text
  original_name : Text
  entity_kind : Text
  purpose : Text
  identifiers : List Text
  attributes_ootb : List Text
  attributes_custom : List Text
  custom_with_fr : List (Text × List Text)
  field_groups : List FieldGroupOut
deriving DecidableEq

/-- The document produced by step 3. -/
structure Step3Output where
  model_date : Text
  entities : List Step3Entity
deriving DecidableEq

/-- The purpose text of the assembled entity, by template. -/
def step3Purpose (t : EntityType) : Text :=
  match t with
  | .Person =>
    ("Unified canonical master entity consolidating all requirements (person and organization data) into single Person OOTB entity. This represents the complete MDM golden record structure." : String).data
  | .Organization =>
    ("Unified canonical master entity consolidating all requirements (person and organization data) into single Organization OOTB entity. This represents the complete MDM golden record structure." : String).data
  | _ =>
    ("Unified canonical master entity consolidating all requirements into single Product OOTB entity. This represents the complete MDM golden record structure." : String).data

/-- The identifier list of the assembled entity, by template. -/
def step3Identifiers (t : EntityType) : List Text :=
  match t with
  | .Person => (["PersonId", "SSN", "TaxID"] : List String).map String.data
  | .Organization => ["OrganizationId".data]
  | _ => ["ProductId".data]

/-- Deduplicated field groups from the step 2 field-group mappings, in
order of first occurrence of each name. -/
def step3FGFold (fgms : List FGMapping) : List FieldGroupOut :=
  (fgms.foldl (fun acc fgm =>
    if acc.1.any (fun n => n = fgm.ootb_field_group) then acc
    else
      (acc.1 ++ [fgm.ootb_field_group],
       acc.2 ++ [{ name := fgm.ootb_field_group, group_type := "OOTB".data,
                   fields_ootb := some fgm.ootb_fields_used,
                   fields_custom := fgm.custom_fields_needed }]))
    (([], []) : List Text × List FieldGroupOut)).2

/-- The Identifier field group appended when absent. -/
def identifierFG : FieldGroupOut :=
  { name := "Identifier".data, group_type := "OOTB".data,
    fields_ootb := lookupT ootbFieldGroups "Identifier".data,
    fields_custom := ["SourceSystemKey".data] }

/-- Custom field groups of step 2 appended when their name is not
already present. -/
def step3AddCustomFGs (comps : List CustomComponent) (fgs : List FieldGroupOut) :
    List FieldGroupOut :=
  comps.foldl (fun fgs c =>
    if c.type = .CustomFieldGroup ∧ ¬ fgs.any (fun fg => fg.name = c.name) then
      fgs ++ [{ name := c.name, group_type := "Custom".data,
                fields_ootb := none, fields_custom := c.fields }]
    else fgs) fgs

/-- Step 3: design the data model.  Raises (models the ValueError) when
step 2 produced no entity mapping; otherwise assembles the single
consolidated entity. -/
def step3 (s2 : Step2Output) (now : Text) : Except Text Step3Output :=
  match s2.entity_mappings with
  | [] =>
    .error ("Step 2 must produce at least one entity mapping. All requirements should be consolidated into a single OOTB entity." : String).data
  | em :: _ =>
    let entityName := pyReplace em.requirement " entity".data []
    let fgs1 := step3FGFold s2.field_group_mappings
    let fgs2 :=
      if s2.field_group_mappings.any (fun f => f.ootb_field_group = "Identifier".data) then
        fgs1
      else fgs1 ++ [identifierFG]
    .ok { model_date := now,
          entities :=
            [{ name := etName em.ootb_entity,
               original_name := entityName,
               entity_kind := "OOTB".data,
               purpose := step3Purpose em.ootb_entity,
               identifiers := step3Identifiers em.ootb_entity,
               attributes_ootb := em.ootb_fields_used,
               attributes_custom := em.custom_fields_needed,
               custom_with_fr := em.custom_fields_with_fr,
               field_groups := step3AddCustomFGs s2.custom_components fgs2 }] }

/-! Auxiliary definitions used by the verification statements. -/

/-- The choice function underlying the entities_found accumulation: the
retained entry for a counted word, or none when the word is dropped. -/
def entChoice (rows : List Row) (p : Text × Nat) : Option (Text × EInfo) :=
  if p.2 ≥ 3 ∧ p.1 ∉ excludeWordsAll then
    (if containsSub (lowerText (allTextOriginal rows)) (lowerText p.1) then
      some (p.1,
        { type := classifyTerm rows p.1,
          context := joinSpace ((contextFold rows (lowerText p.1)).take 3),
          frequency := p.2 })
     else none)
  else none

/-- The last per-row rule result for a term across the corpus, in corpus
order. -/
def lastRuleFired (rows : List Row) (w : Text) : Option EntityType :=
  (rows.filterMap (rowRule (lowerText w))).getLast?

/-- Modelled from the spec: the first per-row rule result for a term
across the corpus, the winner according to the specification sentence
that the first rule to fire across all rows wins.  Used only to compare
the specified policy against the implemented one. -/
def firstRuleFired (rows : List Row) (w : Text) : Option EntityType :=
  (rows.filterMap (rowRule (lowerText w))).head?

/-- The fallback role of the classifier when no row rule ever fired. -/
def classifierDefault (w : Text) : EntityType :=
  if lowerText w ∈ fieldGroupCueWords then .FieldGroup else .Person

/-- The step 1 document with the timestamp metadata field blanked. -/
def clearExtractionDate (s : Step1Output) : Step1Output :=
  { s with extraction_date := [] }

/-- The step 2 document with the timestamp metadata field blanked. -/
def clearMappingDate (s : Step2Output) : Step2Output :=
  { s with mapping_date := [] }

/-- The run discovered at least one entity of the given type. -/
def hasEntType (s1 : Step1Output) (t : EntityType) : Prop :=
  ∃ e ∈ s1.business_entities, e.type = t

instance (s1 : Step1Output) (t : EntityType) : Decidable (hasEntType s1 t) := by
  unfold hasEntType
  infer_instance

/-! Concrete corpora used by witnesses and counterexamples. -/

/-- A corpus with no capitalized repeated term at all. -/
def rowsEmptyCase : List Row := [⟨none, "no entities found here".data, []⟩]

/-- A corpus whose only retained term is the word Constituent, classified
as a custom field group by the containment rule. -/
def rowsConstituentCase : List Row :=
  [⟨none, "Record has Constituent Constituent Constituent".data, []⟩]

/-- A corpus that discovers only an Organization entity. -/
def rowsOrgOnlyCase : List Row := [⟨none, "Fox Fox Fox company".data, []⟩]

/-- A corpus that discovers a Person entity (term Fox, person cue, with a
justified custom attribute keyword) and an Email field group. -/
def rowsPersonEmail : List Row :=
  [⟨none, "Fox Fox Fox individual industry".data, []⟩,
   ⟨none, "many Email Email Email".data, []⟩]

/-- A corpus in which the term Customer fires the person rule on the
first row and the organization rule on the second row. -/
def rowsCustomerTwo : List Row :=
  [⟨none, "Customer Customer person record".data, []⟩,
   ⟨none, "Customer works with the company".data, []⟩]

/-- A step 1 document holding exactly one discovered Organization entity
(all other content empty). -/
def s1OrgOnly : Step1Output :=
  { extraction_date := [], total_requirements := 0, source_file := [],
    functional_requirements := [], 
    business_entities := [{ name := "Organization".data, type := .Organization, purpose := [] }],
    attributes := [], relationships := [], roles := [], source_systems := [],
    matching_rules := [], data_quality_rules := [] }

/-- A step 1 document holding one discovered Person entity. -/
def s1PersonOnly : Step1Output :=
  { extraction_date := [], total_requirements := 0, source_file := [],
    functional_requirements := [], 
    business_entities := [{ name := "Person".data, type := .Person, purpose := [] }],
    attributes := [], relationships := [], roles := [], source_systems := [],
    matching_rules := [], data_quality_rules := [] }

/-- A step 1 document with no discovered entities at all. -/
def s1NoEntities : Step1Output :=
  { extraction_date := [], total_requirements := 0, source_file := [],
    functional_requirements := [], business_entities := [],
    attributes := [], relationships := [], roles := [], source_systems := [],
    matching_rules := [], data_quality_rules := [] }

/-! Helper lemmas. -/

/-- Membership in the deduplication accumulator: an element occurs in
the result exactly when it occurs in the input and was not already
seen. -/
theorem mem_firstDedupAux :
    ∀ (l seen : List Text) (x : Text),
      x ∈ firstDedupAux seen l ↔ x ∈ l ∧ x ∉ seen := by
  intro l
  induction l with
  | nil => intro seen x; simp [firstDedupAux]
  | cons y ys ih =>
    intro seen x
    show (x ∈ if y ∈ seen then firstDedupAux seen ys
              else y :: firstDedupAux (y :: seen) ys) ↔ _
    by_cases hy : y ∈ seen
    · rw [if_pos hy, ih]
      constructor
      · rintro ⟨hx, hs⟩
        exact ⟨List.mem_cons.mpr (Or.inr hx), hs⟩
      · rintro ⟨hx, hs⟩
        rcases List.mem_cons.mp hx with rfl | hx
        · exact absurd hy hs
        · exact ⟨hx, hs⟩
    · rw [if_neg hy]
      constructor
      · intro hx
        rcases List.mem_cons.mp hx with rfl | hx
        · exact ⟨List.mem_cons_self _ _, hy⟩
        · have h2 := (ih _ x).mp hx
          exact ⟨List.mem_cons.mpr (Or.inr h2.1),
            fun hs => h2.2 (List.mem_cons.mpr (Or.inr hs))⟩
      · rintro ⟨hx, hs⟩
        rcases List.mem_cons.mp hx with rfl | hx
        · exact List.mem_cons_self _ _
        · by_cases hxy : x = y
          · exact hxy ▸ List.mem_cons_self _ _
          · refine List.mem_cons.mpr (Or.inr ((ih _ x).mpr ⟨hx, ?_⟩))
            intro h
            exact (List.mem_cons.mp h).elim hxy hs

/-- Membership is invariant under first-occurrence deduplication. -/
theorem mem_firstDedup (l : List Text) (x : Text) : x ∈ firstDedup l ↔ x ∈ l := by
  rw [firstDedup, mem_firstDedupAux]
  simp

/-- A conditional-append left fold is a filterMap. -/
theorem foldl_eq_filterMap {α β : Type} (f : α → Option β) (step : List β → α → List β)
    (hstep : ∀ a x, step a x = match f x with | some y => a ++ [y] | none => a) :
    ∀ (l : List α) (acc : List β), l.foldl step acc = acc ++ l.filterMap f := by
  intro l
  induction l with
  | nil => intro acc; simp
  | cons x xs ih =>
    intro acc
    rw [List.foldl_cons, hstep, List.filterMap_cons]
    cases hx : f x with
    | none => simp only [hx]; rw [ih]
    | some y => simp only [hx]; rw [ih, List.append_assoc]; rfl

/-- Every word emitted by the capitalized-word scan is an infix of the
scanned text. -/
theorem capWordsAux_occurs :
    ∀ (s : Text) (b : Bool) (w : Text), w ∈ capWordsAux b s → w <:+: s := by
  intro s
  induction s with
  | nil => intro b w h; simp [capWordsAux] at h
  | cons c cs ih =>
    intro b w h
    rw [capWordsAux] at h
    rcases List.mem_append.mp h with h | h
    · have hw : w = c :: cs.takeWhile isLowerChar := by
        split at h
        · split at h
          · simpa using h
          · simp at h
        · simp at h
      subst hw
      refine List.IsPrefix.isInfix ?_
      obtain ⟨r, hr⟩ := List.takeWhile_prefix (l := cs) isLowerChar
      exact ⟨r, by rw [List.cons_append, hr]⟩
    · exact (ih (wordChar c) w h).trans (List.suffix_cons c cs).isInfix

/-- The containment test is the infix relation. -/
theorem containsSub_iff (s w : Text) : containsSub s w = true ↔ w <:+: s := by
  unfold containsSub
  rw [List.any_eq_true]
  constructor
  · rintro ⟨t, ht, hp⟩
    exact List.infix_iff_prefix_suffix.mpr
      ⟨t, List.isPrefixOf_iff_prefix.mp hp, (List.mem_tails t s).mp ht⟩
  · intro h
    obtain ⟨t, hp, hs⟩ := List.infix_iff_prefix_suffix.mp h
    exact ⟨t, (List.mem_tails t s).mpr hs, List.isPrefixOf_iff_prefix.mpr hp⟩

/-- A word discovered in a text also occurs, lowercased, in the
lowercased text. -/
theorem capWords_lower_contains (s w : Text) (h : w ∈ capWords s) :
    containsSub (lowerText s) (lowerText w) = true := by
  exact (containsSub_iff _ _).mpr ((capWordsAux_occurs s false w h).map Char.toLower)

/-- The entities_found accumulation as a filterMap over the counted
words. -/
theorem entitiesFound_eq_filterMap (rows : List Row) :
    entitiesFound rows = (wordCounts rows).filterMap (entChoice rows) := by
  unfold entitiesFound
  rw [foldl_eq_filterMap (entChoice rows)]
  · rfl
  · intro a x
    unfold entChoice
    split
    · split <;> rfl
    · rfl

/-- C7: a capitalized term discovered in the original-case concatenation
of all requirement text is retained as a candidate if and only if its
occurrence count is at least 3 and it belongs to neither the static
noise-word set nor the static external-source-system-name set. -/
theorem claim_C7_term_retention (rows : List Row) (w : Text) :
    w ∈ (entitiesFound rows).map Prod.fst ↔
      ((capWords (allTextOriginal rows)).count w ≥ 3
        ∧ w ∉ excludeWordsBase ∧ w ∉ sourceSystemNames) := by
  constructor
  · intro h
    rw [entitiesFound_eq_filterMap] at h
    obtain ⟨p, hp, rfl⟩ := List.mem_map.mp h
    obtain ⟨q, hq, hchoice⟩ := List.mem_filterMap.mp hp
    unfold entChoice at hchoice
    split at hchoice
    · rename_i hcond
      split at hchoice
      · obtain rfl := Option.some.inj hchoice
        obtain ⟨u, hu, rfl⟩ := List.mem_map.mp hq
        refine ⟨hcond.1, ?_, ?_⟩
        · exact fun hmem => hcond.2 (List.mem_append.mpr (Or.inl hmem))
        · exact fun hmem => hcond.2 (List.mem_append.mpr (Or.inr hmem))
      · exact absurd hchoice (by simp)
    · exact absurd hchoice (by simp)
  · rintro ⟨h3, hb, hs⟩
    have hcap : w ∈ capWords (allTextOriginal rows) :=
      List.count_pos_iff.mp (by omega)
    have hwc : (w, (capWords (allTextOriginal rows)).count w) ∈ wordCounts rows := by
      unfold wordCounts
      exact List.mem_map_of_mem _ ((mem_firstDedup _ w).mpr hcap)
    have hnotin : w ∉ excludeWordsAll := by
      intro hmem
      exact (List.mem_append.mp hmem).elim hb hs
    have hch : entChoice rows (w, (capWords (allTextOriginal rows)).count w)
        = some (w,
            { type := classifyTerm rows w,
              context := joinSpace ((contextFold rows (lowerText w)).take 3),
              frequency := (capWords (allTextOriginal rows)).count w }) := by
      unfold entChoice
      rw [if_pos ⟨h3, hnotin⟩, if_pos (capWords_lower_contains _ _ hcap)]
    rw [entitiesFound_eq_filterMap]
    exact List.mem_map.mpr ⟨_, List.mem_filterMap.mpr ⟨_, hwc, hch⟩, rfl⟩

/-- The filtered requirement list of a type is non-empty exactly when an
entity of the type was discovered. -/
theorem filterType_ne_nil_iff (s1 : Step1Output) (t : EntityType) :
    s1.business_entities.filter (fun e => e.type = t) ≠ [] ↔ hasEntType s1 t := by
  rw [Ne, List.filter_eq_nil_iff]
  simp [hasEntType]

/-- The template-selection rule never yields Product. -/
theorem step2Selected_ne_product (s1 : Step1Output) :
    step2Selected s1 ≠ some .Product := by
  unfold step2Selected
  split
  · simp
  · split <;> simp

/-- C1: for every run, if any Person-role entity was discovered, or
neither a Person-role nor an Organization-role entity was discovered,
the chosen consolidation template is Person; if an Organization-role
entity was discovered and no Person-role entity was, the chosen template
is Organization; the Product template is never chosen, for any input. -/
theorem claim_C1_template_selection (s1 : Step1Output) (now : Text) :
    (hasEntType s1 .Person ∨ (¬ hasEntType s1 .Person ∧ ¬ hasEntType s1 .Organization) →
      ((step2 s1 now).entity_mappings).map (fun m => m.ootb_entity) = [.Person])
    ∧ (hasEntType s1 .Organization ∧ ¬ hasEntType s1 .Person →
      ((step2 s1 now).entity_mappings).map (fun m => m.ootb_entity) = [.Organization])
    ∧ .Product ∉ ((step2 s1 now).entity_mappings).map (fun m => m.ootb_entity) := by
  refine ⟨?_, ?_, ?_⟩
  · intro h
    have hsel : step2Selected s1 = some .Person := by
      unfold step2Selected
      rw [if_pos]
      rcases h with h | ⟨hp, ho⟩
      · exact Or.inl ((filterType_ne_nil_iff s1 .Person).mpr h)
      · refine Or.inr ⟨?_, ?_⟩
        · by_contra hne
          exact ho ((filterType_ne_nil_iff s1 .Organization).mp hne)
        · by_contra hne
          exact hp ((filterType_ne_nil_iff s1 .Person).mp hne)
    simp [step2, step2EntityMappings, hsel]
  · rintro ⟨ho, hp⟩
    have hpnil : personReqsOf s1 = [] := by
      by_contra hne
      exact hp ((filterType_ne_nil_iff s1 .Person).mp hne)
    have honil : orgReqsOf s1 ≠ [] := (filterType_ne_nil_iff s1 .Organization).mpr ho
    have hsel : step2Selected s1 = some .Organization := by
      unfold step2Selected
      rw [if_neg, if_pos honil]
      rintro (h | ⟨h1, _⟩)
      · exact h hpnil
      · exact honil h1
    simp [step2, step2EntityMappings, hsel]
  · cases hsel : step2Selected s1 with
    | none => simp [step2, step2EntityMappings, hsel]
    | some t =>
      have ht : t ≠ .Product := fun h => step2Selected_ne_product s1 (h ▸ hsel)
      simp [step2, step2EntityMappings, hsel]
      exact fun h => ht h.symm

/-- Witness for C1: a Person-only run consolidates into Person, an
Organization-only run into Organization. -/
theorem claim_C1_template_selection_witness :
    ((step2 s1PersonOnly []).entity_mappings).map (fun m => m.ootb_entity) = [.Person]
    ∧ ((step2 s1OrgOnly []).entity_mappings).map (fun m => m.ootb_entity) = [.Organization] :=
  ⟨(claim_C1_template_selection s1PersonOnly []).1 (Or.inl (by decide)),
   (claim_C1_template_selection s1OrgOnly []).2.1 ⟨by decide, by decide⟩⟩

/-- The last element of a non-empty list through getLast?. -/
theorem getLast?_cons_eq {β : Type} (y : β) :
    ∀ (t : List β), (y :: t).getLast? = some (t.getLast?.getD y) := by
  intro t
  induction t generalizing y with
  | nil => rfl
  | cons a as ih =>
    rw [List.getLast?_cons_cons, ih a]
    simp

/-- An overwriting left fold of optional results keeps the last one. -/
theorem foldl_overwrite_eq {α β : Type} (g : α → Option β) :
    ∀ (l : List α) (acc : Option β),
      l.foldl (fun acc x => (g x).or acc) acc
        = ((l.filterMap g).getLast?).or acc := by
  intro l
  induction l with
  | nil => intro acc; simp
  | cons x xs ih =>
    intro acc
    rw [List.foldl_cons, List.filterMap_cons]
    cases hx : g x with
    | none => simp only [hx, Option.none_or]; rw [ih]
    | some y =>
      simp only [hx, Option.or_some]
      rw [ih, getLast?_cons_eq]
      cases hl : (xs.filterMap g).getLast? <;> simp [hl]

/-- C2 (amended): the final stored role of a term is decided by
evaluating rules 1-5 row-by-row in corpus order with the LAST rule to
fire across all rows winning (each later firing row overwrites the role
already assigned); rules 6 and 7 (exact field-group-word match, then
default Person) apply only if no row ever matched rules 1-5. -/
theorem claim_C2_classifier_precedence_amended (rows : List Row) (w : Text) :
    classifyTerm rows w =
      match lastRuleFired rows w with
      | some t => t
      | none => classifierDefault w := by
  unfold classifyTerm classifyFold lastRuleFired classifierDefault
  rw [foldl_overwrite_eq]
  cases h : ((rows.filterMap (rowRule (lowerText w))).getLast?) <;>
    simp [h, Option.or]

/-- Counterexample to C2 as stated: in the two-row Customer corpus, the
first rule to fire across the rows is the person rule (on row one), yet
the stored role of the retained candidate Customer is Organization (the
organization rule fired on the later row and overwrote it). -/
theorem claim_C2_classifier_precedence_counterexample :
    firstRuleFired rowsCustomerTwo "Customer".data = some EntityType.Person
    ∧ classifyTerm rowsCustomerTwo "Customer".data = EntityType.Organization
    ∧ (entitiesFound rowsCustomerTwo).map (fun p => (p.1, p.2.type))
        = [("Customer".data, EntityType.Organization)] :=
  ⟨by decide, by decide, by decide⟩

/-- The template-selection rule always selects a template: the guard of
the Person branch is a tautology whenever the Organization branch guard
fails, so the no-template branch is unreachable. -/
theorem step2Selected_isSome (s1 : Step1Output) :
    (step2Selected s1).isSome = true := by
  unfold step2Selected
  split
  · rfl
  · rename_i hcond
    have hp : personReqsOf s1 = [] := by
      by_contra hne
      exact hcond (Or.inl hne)
    rw [if_pos]
    · rfl
    · intro ho
      exact hcond (Or.inr ⟨ho, hp⟩)

/-- Step 2 always emits exactly one entity mapping. -/
theorem step2_mappings_length (s1 : Step1Output) :
    (step2EntityMappings s1).length = 1 := by
  unfold step2EntityMappings
  cases h : step2Selected s1 with
  | none => exact absurd (step2Selected_isSome s1) (by rw [h]; simp)
  | some t => rfl

/-- Every custom component of step 2 is a custom field group: the
synthetic custom entity is never produced. -/
theorem step2_components_cfg (s1 : Step1Output) :
    ∀ c ∈ step2CustomComponents s1, c.type = .CustomFieldGroup := by
  intro c hc
  unfold step2CustomComponents at hc
  cases h : step2Selected s1 with
  | none => exact absurd (step2Selected_isSome s1) (by rw [h]; simp)
  | some t =>
    rw [h] at hc
    simp only [List.nil_append] at hc
    obtain ⟨e, _, hfe⟩ := List.mem_filterMap.mp hc
    split at hfe
    · obtain rfl := Option.some.inj hfe
      rfl
    · cases hfe

/-- C3 (amended): the synthetic custom-entity fallback is unreachable;
on every input, including one with zero discovered business entities,
the consolidation stage emits exactly one NORMAL entity mapping (for a
zero-entity input: a Person-template mapping with empty
consolidated-requirement and custom-field content), and no custom-entity
record is ever produced. -/
theorem claim_C3_zero_entities_fallback_amended (s1 : Step1Output) (now : Text) :
    (step2 s1 now).entity_mappings.length = 1
    ∧ (∀ c ∈ (step2 s1 now).custom_components, c.type = .CustomFieldGroup)
    ∧ (s1.business_entities = [] →
        ((step2 s1 now).entity_mappings).map (fun m => m.ootb_entity) = [.Person]
        ∧ ∀ m ∈ (step2 s1 now).entity_mappings,
            m.custom_fields_with_fr = [] ∧ m.consolidated_requirements = []) := by
  refine ⟨step2_mappings_length s1, step2_components_cfg s1, ?_⟩
  intro hbe
  have hp : personReqsOf s1 = [] := by simp [personReqsOf, hbe]
  have ho : orgReqsOf s1 = [] := by simp [orgReqsOf, hbe]
  have hsel : step2Selected s1 = some .Person := by
    unfold step2Selected
    rw [if_pos (Or.inr ⟨ho, hp⟩)]
  constructor
  · simp [step2, step2EntityMappings, hsel]
  · intro m hm
    simp only [step2, step2EntityMappings, hsel] at hm
    rcases List.mem_singleton.mp hm with rfl
    constructor
    · simp [step2CustomWithFR, hp, ho]
    · simp [consolidatedReqNames, hp, ho]

/-- Witness for C3 (amended): a step 1 document with no discovered
entities yields a single Person-template mapping. -/
theorem claim_C3_zero_entities_fallback_amended_witness :
    s1NoEntities.business_entities = []
    ∧ ((step2 s1NoEntities []).entity_mappings).map (fun m => m.ootb_entity)
        = [.Person] :=
  ⟨by decide,
   ((claim_C3_zero_entities_fallback_amended s1NoEntities []).2.2 (by decide)).1⟩

/-- Counterexample to C3 as stated: a run that discovers zero qualifying
terms does NOT fall back to the synthetic custom-entity record; it
produces a normal consolidated Person mapping and zero custom
components. -/
theorem claim_C3_zero_entities_fallback_counterexample :
    (step1 [] [] rowsEmptyCase).business_entities = []
    ∧ ((step2 (step1 [] [] rowsEmptyCase) []).entity_mappings).map
        (fun m => m.ootb_entity) = [.Person]
    ∧ (step2 (step1 [] [] rowsEmptyCase) []).custom_components = [] :=
  ⟨by decide, by decide, by decide⟩

/-- C8: the model-assembly stage fails fatally if and only if the
consolidation output contains zero entity mappings; with at least one
mapping it proceeds without this failure. -/
theorem claim_C8_downstream_contract (s2 : Step2Output) (now : Text) :
    (∃ msg, step3 s2 now = Except.error msg) ↔ s2.entity_mappings = [] := by
  cases h : s2.entity_mappings with
  | nil => simp [step3, h]
  | cons em rest => simp [step3, h]

/-- C9: running the extraction and the consolidation stage twice on
identical input produces identical documents apart from the timestamp
metadata fields extraction_date and mapping_date; no other content
depends on the timestamp inputs. -/
theorem claim_C9_determinism (sourceFile : Text) (rows : List Row)
    (t1 t2 u1 u2 : Text) :
    clearExtractionDate (step1 sourceFile t1 rows)
        = clearExtractionDate (step1 sourceFile t2 rows)
    ∧ clearMappingDate (step2 (step1 sourceFile t1 rows) u1)
        = clearMappingDate (step2 (step1 sourceFile t2 rows) u2) :=
  ⟨rfl, rfl⟩

/-- A left fold preserves any invariant its step preserves. -/
theorem foldl_preserve {α β : Type} (P : β → Prop) (f : β → α → β)
    (hf : ∀ b a, P b → P (f b a)) :
    ∀ (l : List α) (b : β), P b → P (l.foldl f b) := by
  intro l
  induction l with
  | nil => intro b hb; exact hb
  | cons x xs ih => intro b hb; exact ih _ (hf b x hb)

/-- When the key is absent, every entry of the map has a different key. -/
theorem lookupT_none_keys {β : Type} (m : List (Text × β)) (k : Text)
    (h : (lookupT m k).isNone = true) : ∀ p ∈ m, p.1 ≠ k := by
  intro p hp
  unfold lookupT at h
  cases hf : m.find? (fun p => p.1 = k) with
  | some q => rw [hf] at h; cases h
  | none =>
    have := List.find?_eq_none.mp hf p hp
    simpa using this

/-- Recording one requirement identifier under one attribute key keeps
every justification list non-empty and duplicate-free. -/
theorem appendFR_ensureKey_good (m : List (Text × List Text)) (k fr : Text)
    (hm : ∀ p ∈ m, p.2 ≠ [] ∧ p.2.Nodup) :
    ∀ p ∈ appendFR (ensureKey m k) k fr, p.2 ≠ [] ∧ p.2.Nodup := by
  intro q hq
  unfold appendFR ensureKey at hq
  by_cases hk : (lookupT m k).isNone
  · rw [if_pos hk] at hq
    obtain ⟨p, hp, rfl⟩ := List.mem_map.mp hq
    rcases List.mem_append.mp hp with hp | hp
    · rw [if_neg (by simpa using lookupT_none_keys m k hk p hp)]
      exact hm p hp
    · rcases List.mem_singleton.mp hp with rfl
      simp
  · rw [if_neg hk] at hq
    obtain ⟨p, hp, rfl⟩ := List.mem_map.mp hq
    by_cases hpk : p.1 = k
    · rw [if_pos hpk]
      obtain ⟨hne, hnd⟩ := hm p hp
      by_cases hfr : fr ∈ p.2
      · rw [if_pos hfr]
        exact ⟨hne, hnd⟩
      · rw [if_neg hfr]
        refine ⟨by simp, ?_⟩
        simp [List.nodup_append, hnd, hfr]
    · rw [if_neg hpk]
      exact hm p hp

/-- The scan of one requirement preserves the justification invariant. -/
theorem attrStep_good (m : List (Text × List Text)) (fr : FR)
    (hm : ∀ p ∈ m, p.2 ≠ [] ∧ p.2.Nodup) :
    ∀ p ∈ attrStep m fr, p.2 ≠ [] ∧ p.2.Nodup := by
  unfold attrStep
  refine foldl_preserve (fun m => ∀ p ∈ m, p.2 ≠ [] ∧ p.2.Nodup) _ ?_ _ m hm
  intro b a hb
  split
  · exact appendFR_ensureKey_good b _ _ hb
  · exact hb

/-- C5: every attribute recorded by the attribute pass carries a
non-empty list of justifying requirement identifiers, and that list
holds no duplicate identifiers (recording is idempotent per
attribute-requirement pair). -/
theorem claim_C5_attribute_traceability (frs : List FR) (p : Text × List Text)
    (hp : p ∈ customAttributesWithFR frs) :
    p.2 ≠ [] ∧ p.2.Nodup := by
  revert p hp
  unfold customAttributesWithFR
  refine foldl_preserve
    (fun m : List (Text × List Text) => ∀ p ∈ m, p.2 ≠ [] ∧ p.2.Nodup)
    _ ?_ frs [] (by simp)
  intro b a hb
  exact attrStep_good b a hb

/-- Witness for C5: a one-requirement corpus mentioning the industry
keyword records the Industry attribute justified by FR1. -/
theorem claim_C5_attribute_traceability_witness :
    (("Industry".data, ["FR1".data])
        ∈ customAttributesWithFR [⟨"FR1".data, [], [], "industry review".data⟩])
    ∧ (["FR1".data] ≠ [] ∧ (["FR1".data] : List Text).Nodup) :=
  ⟨by decide,
   claim_C5_attribute_traceability [⟨"FR1".data, [], [], "industry review".data⟩]
     ("Industry".data, ["FR1".data]) (by decide)⟩

/-- A successful lookup returns the value of some entry of the map. -/
theorem lookupT_some_mem {β : Type} (m : List (Text × β)) (k : Text) (b : β)
    (h : lookupT m k = some b) : ∃ p ∈ m, p.2 = b := by
  unfold lookupT at h
  cases hf : m.find? (fun p => p.1 = k) with
  | none => rw [hf] at h; cases h
  | some q =>
    rw [hf] at h
    exact ⟨q, List.mem_of_find?_eq_some hf, by simpa using h⟩

/-- Binding a key to a non-empty value keeps all values non-empty. -/
theorem setAssoc_nonempty (m : List (Text × List Text)) (k : Text) (v : List Text)
    (hv : v ≠ []) (hm : ∀ p ∈ m, p.2 ≠ []) :
    ∀ p ∈ setAssoc m k v, p.2 ≠ [] := by
  intro q hq
  unfold setAssoc at hq
  by_cases hk : (lookupT m k).isNone
  · rw [if_pos hk] at hq
    rcases List.mem_append.mp hq with hq | hq
    · exact hm q hq
    · rcases List.mem_singleton.mp hq with rfl
      exact hv
  · rw [if_neg hk] at hq
    obtain ⟨p, hp, rfl⟩ := List.mem_map.mp hq
    by_cases hpk : p.1 = k
    · rw [if_pos hpk]
      exact hv
    · rw [if_neg hpk]
      exact hm p hp

/-- Merging justified custom attributes keeps all values non-empty. -/
theorem mergeCustomWithFR_nonempty (m lst : List (Text × List Text))
    (hm : ∀ p ∈ m, p.2 ≠ []) :
    ∀ p ∈ mergeCustomWithFR m lst, p.2 ≠ [] := by
  unfold mergeCustomWithFR
  refine foldl_preserve (fun m : List (Text × List Text) => ∀ p ∈ m, p.2 ≠ [])
    _ ?_ lst m hm
  intro b a hb
  by_cases ha : a.2 ≠ []
  · rw [if_pos ha]
    exact setAssoc_nonempty b a.1 a.2 ha hb
  · rw [if_neg ha]
    exact hb

/-- Recording one requirement identifier keeps all values non-empty. -/
theorem appendFR_ensureKey_nonempty (m : List (Text × List Text)) (k fr : Text)
    (hm : ∀ p ∈ m, p.2 ≠ []) :
    ∀ p ∈ appendFR (ensureKey m k) k fr, p.2 ≠ [] := by
  intro q hq
  unfold appendFR ensureKey at hq
  by_cases hk : (lookupT m k).isNone
  · rw [if_pos hk] at hq
    obtain ⟨p, hp, rfl⟩ := List.mem_map.mp hq
    rcases List.mem_append.mp hp with hp | hp
    · rw [if_neg (by simpa using lookupT_none_keys m k hk p hp)]
      exact hm p hp
    · rcases List.mem_singleton.mp hp with rfl
      simp
  · rw [if_neg hk] at hq
    obtain ⟨p, hp, rfl⟩ := List.mem_map.mp hq
    by_cases hpk : p.1 = k
    · rw [if_pos hpk]
      by_cases hfr : fr ∈ p.2
      · rw [if_pos hfr]
        exact hm p hp
      · rw [if_neg hfr]
        simp
    · rw [if_neg hpk]
      exact hm p hp

/-- Folding an OOTB field over the requirements keeps all values
non-empty. -/
theorem fieldFRFold_nonempty (frs : List FR) (m : List (Text × List Text))
    (field : Text) (hm : ∀ p ∈ m, p.2 ≠ []) :
    ∀ p ∈ fieldFRFold frs m field, p.2 ≠ [] := by
  unfold fieldFRFold
  refine foldl_preserve (fun m : List (Text × List Text) => ∀ p ∈ m, p.2 ≠ [])
    _ ?_ frs m hm
  intro b a hb
  split
  · exact appendFR_ensureKey_nonempty b field a.fr_number hb
  · exact hb

/-- The per-Person-requirement step keeps all values non-empty whenever
every attribute record carries its justification table (as step 1
guarantees), because the backward-compatibility fallback is then never
taken. -/
theorem personBranchStep_nonempty (s1 : Step1Output)
    (hattr : ∀ p ∈ s1.attributes, ∃ l, p.2.custom_with_fr = some l)
    (m : List (Text × List Text)) (req : BusinessEntity)
    (hm : ∀ p ∈ m, p.2 ≠ []) :
    ∀ p ∈ personBranchStep s1 m req, p.2 ≠ [] := by
  unfold personBranchStep
  cases hl : lookupT s1.attributes req.name with
  | none => exact hm
  | some ad =>
    obtain ⟨q, hq, hq2⟩ := lookupT_some_mem _ _ _ hl
    obtain ⟨l, hcwf⟩ := hattr q hq
    rw [hq2] at hcwf
    simp only [hcwf]
    exact mergeCustomWithFR_nonempty m l hm

/-- The per-Organization-requirement step of the Person branch keeps all
values non-empty under the same guarantee. -/
theorem orgInPersonBranchStep_nonempty (s1 : Step1Output)
    (hattr : ∀ p ∈ s1.attributes, ∃ l, p.2.custom_with_fr = some l)
    (allOotb : List Text) (m : List (Text × List Text)) (req : BusinessEntity)
    (hm : ∀ p ∈ m, p.2 ≠ []) :
    ∀ p ∈ orgInPersonBranchStep s1 allOotb m req, p.2 ≠ [] := by
  unfold orgInPersonBranchStep
  cases hl : lookupT s1.attributes req.name with
  | none => exact hm
  | some ad =>
    obtain ⟨q, hq, hq2⟩ := lookupT_some_mem _ _ _ hl
    obtain ⟨l, hcwf⟩ := hattr q hq
    rw [hq2] at hcwf
    simp only [hcwf]
    refine foldl_preserve (fun m : List (Text × List Text) => ∀ p ∈ m, p.2 ≠ [])
      _ ?_ _ _ (mergeCustomWithFR_nonempty m l hm)
    intro b a hb
    split
    · exact fieldFRFold_nonempty s1.functional_requirements b a hb
    · exact hb

/-- The per-Organization-requirement step of the Organization branch
keeps all values non-empty under the same guarantee. -/
theorem orgBranchStep_nonempty (s1 : Step1Output)
    (hattr : ∀ p ∈ s1.attributes, ∃ l, p.2.custom_with_fr = some l)
    (m : List (Text × List Text)) (req : BusinessEntity)
    (hm : ∀ p ∈ m, p.2 ≠ []) :
    ∀ p ∈ orgBranchStep s1 m req, p.2 ≠ [] := by
  unfold orgBranchStep
  cases hl : lookupT s1.attributes req.name with
  | none => exact hm
  | some ad =>
    obtain ⟨q, hq, hq2⟩ := lookupT_some_mem _ _ _ hl
    obtain ⟨l, hcwf⟩ := hattr q hq
    rw [hq2] at hcwf
    simp only [hcwf]
    exact mergeCustomWithFR_nonempty m l hm

/-- All custom-field values of the chosen template are non-empty when
every attribute record carries its justification table. -/
theorem step2CustomWithFR_nonempty (s1 : Step1Output)
    (hattr : ∀ p ∈ s1.attributes, ∃ l, p.2.custom_with_fr = some l)
    (t : EntityType) :
    ∀ p ∈ step2CustomWithFR s1 t, p.2 ≠ [] := by
  cases t with
  | Person =>
    unfold step2CustomWithFR
    have hcf1 : ∀ p ∈ (personReqsOf s1).foldl (personBranchStep s1) [], p.2 ≠ [] := by
      refine foldl_preserve (fun m : List (Text × List Text) => ∀ p ∈ m, p.2 ≠ [])
        _ ?_ _ _ (by simp)
      intro b a hb
      exact personBranchStep_nonempty s1 hattr b a hb
    by_cases ho : orgReqsOf s1 ≠ []
    · rw [if_pos ho]
      refine foldl_preserve (fun m : List (Text × List Text) => ∀ p ∈ m, p.2 ≠ [])
        _ ?_ _ _ hcf1
      intro b a hb
      exact orgInPersonBranchStep_nonempty s1 hattr _ b a hb
    · rw [if_neg ho]
      exact hcf1
  | Organization =>
    unfold step2CustomWithFR
    have hcf1 : ∀ p ∈ (orgReqsOf s1).foldl (orgBranchStep s1) [], p.2 ≠ [] := by
      refine foldl_preserve (fun m : List (Text × List Text) => ∀ p ∈ m, p.2 ≠ [])
        _ ?_ _ _ (by simp)
      intro b a hb
      exact orgBranchStep_nonempty s1 hattr b a hb
    by_cases hp : personReqsOf s1 ≠ []
    · rw [if_pos hp]
      refine foldl_preserve (fun m : List (Text × List Text) => ∀ p ∈ m, p.2 ≠ [])
        _ ?_ _ _ hcf1
      intro b a hb
      split
      · exact fieldFRFold_nonempty s1.functional_requirements b a hb
      · exact hb
    · rw [if_neg hp]
      exact hcf1
  | Product => simp [step2CustomWithFR]
  | FieldGroup => simp [step2CustomWithFR]
  | CustomFieldGroup => simp [step2CustomWithFR]

/-- Step 1 always stores the justification table of its single
attribute record. -/
theorem step1_attr_cwf (sourceFile t : Text) (rows : List Row) :
    ∀ p ∈ (step1 sourceFile t rows).attributes, ∃ l, p.2.custom_with_fr = some l := by
  intro p hp
  simp only [step1] at hp
  rcases List.mem_singleton.mp hp with rfl
  exact ⟨_, rfl⟩

/-- Every field-group mapping of step 2 carries exactly the
source-record tracking key as its custom field. -/
theorem step2FG_custom_const (s1 : Step1Output) :
    ∀ fg ∈ step2FGMappings s1, fg.custom_fields_needed = ["SourceSystemKey".data] := by
  intro fg hfg
  unfold step2FGMappings at hfg
  obtain ⟨e, _, hfe⟩ := List.mem_filterMap.mp hfg
  split at hfe
  · split at hfe
    · obtain rfl := Option.some.inj hfe
      rfl
    · cases hfe
  · cases hfe

/-- C4: every custom field name appearing in the consolidated entity
mapping of a run carries at least one justifying requirement identifier,
and the custom fields of every field-group mapping consist exactly of
the structurally-exempt source-record tracking key SourceSystemKey. -/
theorem claim_C4_no_unjustified_fields (sourceFile t u : Text) (rows : List Row) :
    (∀ m ∈ (step2 (step1 sourceFile t rows) u).entity_mappings,
       ∀ p ∈ m.custom_fields_with_fr, p.2 ≠ [])
    ∧ (∀ fg ∈ (step2 (step1 sourceFile t rows) u).field_group_mappings,
       fg.custom_fields_needed = ["SourceSystemKey".data]) := by
  constructor
  · intro m hm
    simp only [step2] at hm
    unfold step2EntityMappings at hm
    cases hsel : step2Selected (step1 sourceFile t rows) with
    | none => rw [hsel] at hm; cases hm
    | some tt =>
      rw [hsel] at hm
      rcases List.mem_singleton.mp hm with rfl
      exact step2CustomWithFR_nonempty _ (step1_attr_cwf sourceFile t rows) tt
  · intro fg hfg
    exact step2FG_custom_const _ fg hfg

/-- Witness for C4: in the Fox-and-Email run the consolidated mapping
holds the custom field Industry justified by FR1, and the Email
field-group mapping carries exactly the SourceSystemKey custom field. -/
theorem claim_C4_no_unjustified_fields_witness :
    (("Industry".data, ["FR1".data]) ∈
        (((step2 (step1 [] [] rowsPersonEmail) []).entity_mappings).headD
          ⟨[], .Person, [], [], [], [], []⟩).custom_fields_with_fr)
    ∧ (["FR1".data] : List Text) ≠ []
    ∧ ((((step2 (step1 [] [] rowsPersonEmail) []).field_group_mappings).headD
          ⟨[], [], [], [], []⟩).custom_fields_needed = ["SourceSystemKey".data]) :=
  ⟨by decide,
   (claim_C4_no_unjustified_fields [] [] [] rowsPersonEmail).1
     (((step2 (step1 [] [] rowsPersonEmail) []).entity_mappings).headD
       ⟨[], .Person, [], [], [], [], []⟩)
     (by decide)
     ("Industry".data, ["FR1".data])
     (by decide),
   (claim_C4_no_unjustified_fields [] [] [] rowsPersonEmail).2
     (((step2 (step1 [] [] rowsPersonEmail) []).field_group_mappings).headD
       ⟨[], [], [], [], []⟩)
     (by decide)⟩

/-- The deduplication pass keeps at most one entity per master type, and
none at all of a type already seen. -/
theorem buildBE_count (r : EntityType) (hr : isMasterType r = true) :
    ∀ (l : List (Text × EInfo)) (seen : List EntityType),
      (r ∈ seen →
        ((buildBusinessEntities l seen).filter (fun e => e.type = r)).length = 0)
      ∧ ((buildBusinessEntities l seen).filter (fun e => e.type = r)).length ≤ 1 := by
  intro l
  induction l with
  | nil => intro seen; simp [buildBusinessEntities]
  | cons c cs ih =>
    intro seen
    rw [show buildBusinessEntities (c :: cs) seen =
          (if isMasterType c.2.type then
            (if c.2.type ∈ seen then buildBusinessEntities cs seen
             else mkMasterEntity c :: buildBusinessEntities cs (c.2.type :: seen))
          else mkGroupEntity c :: buildBusinessEntities cs seen) from rfl]
    by_cases hM : isMasterType c.2.type
    · rw [if_pos hM]
      by_cases hS : c.2.type ∈ seen
      · rw [if_pos hS]
        exact ih seen
      · rw [if_neg hS]
        by_cases hcr : c.2.type = r
        · have hmk : (mkMasterEntity c).type = r := hcr
          constructor
          · intro hrseen
            exact absurd (hcr ▸ hrseen) hS
          · rw [List.filter_cons_of_pos (by simpa using hmk)]
            have h0 := (ih (c.2.type :: seen)).1 (hcr ▸ List.mem_cons_self _ _)
            simp [h0]
        · have hmk : ¬ ((mkMasterEntity c).type = r) := hcr
          rw [List.filter_cons_of_neg (by simpa using hmk)]
          constructor
          · intro hrseen
            exact (ih (c.2.type :: seen)).1 (List.mem_cons.mpr (Or.inr hrseen))
          · exact (ih (c.2.type :: seen)).2
    · rw [if_neg hM]
      have hcr : ¬ (c.2.type = r) := fun h => hM (h ▸ hr)
      rw [List.filter_cons_of_neg (by simpa using hcr)]
      exact ih seen

/-- A master entity of an unseen type in the deduplication output stems
from the first candidate of that type in the candidate order. -/
theorem buildBE_first (r : EntityType) (hr : isMasterType r = true) :
    ∀ (l : List (Text × EInfo)) (seen : List EntityType), r ∉ seen →
      ∀ e ∈ buildBusinessEntities l seen, e.type = r →
        ∃ c, l.find? (fun c => c.2.type = r) = some c ∧ e = mkMasterEntity c := by
  intro l
  induction l with
  | nil =>
    intro seen _ e he
    simp [buildBusinessEntities] at he
  | cons c cs ih =>
    intro seen hseen e he het
    rw [show buildBusinessEntities (c :: cs) seen =
          (if isMasterType c.2.type then
            (if c.2.type ∈ seen then buildBusinessEntities cs seen
             else mkMasterEntity c :: buildBusinessEntities cs (c.2.type :: seen))
          else mkGroupEntity c :: buildBusinessEntities cs seen) from rfl] at he
    by_cases hM : isMasterType c.2.type
    · rw [if_pos hM] at he
      by_cases hS : c.2.type ∈ seen
      · rw [if_pos hS] at he
        have hcr : ¬ (c.2.type = r) := fun h => hseen (h ▸ hS)
        obtain ⟨c', hc', he'⟩ := ih seen hseen e he het
        exact ⟨c', by rw [List.find?_cons_of_neg _ (by simpa using hcr)]; exact hc', he'⟩
      · rw [if_neg hS] at he
        rcases List.mem_cons.mp he with rfl | he2
        · have hcr : c.2.type = r := het
          exact ⟨c, List.find?_cons_of_pos _ (by simpa using hcr), rfl⟩
        · by_cases hcr : c.2.type = r
          · have h0 := (buildBE_count r hr cs (c.2.type :: seen)).1
              (hcr ▸ List.mem_cons_self _ _)
            rw [List.length_eq_zero] at h0
            have hmem : e ∈ (buildBusinessEntities cs (c.2.type :: seen)).filter
                (fun e => e.type = r) :=
              List.mem_filter.mpr ⟨he2, by simpa using het⟩
            rw [h0] at hmem
            cases hmem
          · have hseen2 : r ∉ c.2.type :: seen := by
              intro h
              rcases List.mem_cons.mp h with h | h
              · exact hcr h.symm
              · exact hseen h
            obtain ⟨c', hc', he'⟩ := ih _ hseen2 e he2 het
            exact ⟨c', by rw [List.find?_cons_of_neg _ (by simpa using hcr)]; exact hc', he'⟩
    · rw [if_neg hM] at he
      have hcr : ¬ (c.2.type = r) := fun h => hM (h ▸ hr)
      rcases List.mem_cons.mp he with rfl | he2
      · exact absurd het hcr
      · obtain ⟨c', hc', he'⟩ := ih seen hseen e he2 het
        exact ⟨c', by rw [List.find?_cons_of_neg _ (by simpa using hcr)]; exact hc', he'⟩

/-- In a descending-sorted list, the first element satisfying a
predicate has a frequency at least that of every element satisfying
it. -/
theorem find?_sorted_max {α : Type} (freq : α → Nat) (P : α → Bool) :
    ∀ (l : List α), List.Sorted (fun a b => freq b ≤ freq a) l →
      ∀ c, l.find? P = some c → ∀ y ∈ l, P y = true → freq y ≤ freq c := by
  intro l
  induction l with
  | nil => intro _ c hc; cases hc
  | cons x xs ih =>
    intro hs c hc y hy hPy
    obtain ⟨hx, hs2⟩ := List.sorted_cons.mp hs
    by_cases hPx : P x = true
    · rw [List.find?_cons_of_pos _ hPx] at hc
      obtain rfl := Option.some.inj hc
      rcases List.mem_cons.mp hy with rfl | hy
      · exact Nat.le_refl _
      · exact hx y hy
    · rw [List.find?_cons_of_neg _ hPx] at hc
      rcases List.mem_cons.mp hy with rfl | hy
      · exact absurd hPy hPx
      · exact ih hs2 c hc y hy hPy

/-- The candidate sort is sorted by descending frequency. -/
theorem sortCandidates_sorted (l : List (Text × EInfo)) :
    List.Sorted (fun a b : Text × EInfo => b.2.frequency ≤ a.2.frequency)
      (sortCandidates l) := by
  unfold sortCandidates
  haveI : IsTotal (Text × EInfo) (fun a b => b.2.frequency ≤ a.2.frequency) :=
    ⟨fun a b => Nat.le_total b.2.frequency a.2.frequency⟩
  haveI : IsTrans (Text × EInfo) (fun a b => b.2.frequency ≤ a.2.frequency) :=
    ⟨fun _ _ _ h1 h2 => Nat.le_trans h2 h1⟩
  exact List.sorted_insertionSort _ l

/-- The candidate sort is a permutation of the candidates. -/
theorem sortCandidates_perm (l : List (Text × EInfo)) :
    List.Perm (sortCandidates l) l :=
  List.perm_insertionSort _ l

/-- C6: the discovered business-entities output of a run holds at most
one entity per master-entity role, and every retained master entity is
built from a candidate of that role whose occurrence frequency is
maximal among the candidates of the role (candidates are sorted by
descending frequency before deduplication and the first of each role is
kept). -/
theorem claim_C6_entity_dedup (sourceFile tstamp : Text) (rows : List Row)
    (r : EntityType) (hr : isMasterType r = true) :
    ((((step1 sourceFile tstamp rows).business_entities).filter
        (fun e => e.type = r)).length ≤ 1)
    ∧ (∀ e ∈ (step1 sourceFile tstamp rows).business_entities, e.type = r →
        ∃ c ∈ entitiesFound rows, c.2.type = r ∧ e = mkMasterEntity c
          ∧ ∀ c' ∈ entitiesFound rows, c'.2.type = r →
              c'.2.frequency ≤ c.2.frequency) := by
  have hbe : (step1 sourceFile tstamp rows).business_entities
      = buildBusinessEntities (sortCandidates (entitiesFound rows)) [] := rfl
  rw [hbe]
  constructor
  · exact (buildBE_count r hr (sortCandidates (entitiesFound rows)) []).2
  · intro e he het
    obtain ⟨c, hfind, hec⟩ :=
      buildBE_first r hr (sortCandidates (entitiesFound rows)) [] (by simp) e he het
    have hcmem : c ∈ entitiesFound rows :=
      (sortCandidates_perm (entitiesFound rows)).mem_iff.mp
        (List.mem_of_find?_eq_some hfind)
    have hcr : c.2.type = r := by simpa using List.find?_some hfind
    refine ⟨c, hcmem, hcr, hec, ?_⟩
    intro c2 hc2 hc2r
    exact find?_sorted_max (fun a => a.2.frequency) _ _
      (sortCandidates_sorted (entitiesFound rows)) c hfind c2
      ((sortCandidates_perm (entitiesFound rows)).mem_iff.mpr hc2)
      (by simpa using hc2r)

/-- Witness for C6: in the Fox-and-Email run the Person filter has at
most one element, and the first business entity is built from a maximal
Person candidate. -/
theorem claim_C6_entity_dedup_witness :
    ((((step1 [] [] rowsPersonEmail).business_entities).filter
        (fun e => e.type = EntityType.Person)).length ≤ 1)
    ∧ (∃ c ∈ entitiesFound rowsPersonEmail, c.2.type = EntityType.Person
        ∧ (((step1 [] [] rowsPersonEmail).business_entities).headD
            ⟨[], .Person, []⟩) = mkMasterEntity c
        ∧ ∀ c' ∈ entitiesFound rowsPersonEmail, c'.2.type = EntityType.Person →
            c'.2.frequency ≤ c.2.frequency) :=
  ⟨(claim_C6_entity_dedup [] [] rowsPersonEmail .Person (by decide)).1,
   (claim_C6_entity_dedup [] [] rowsPersonEmail .Person (by decide)).2
     (((step1 [] [] rowsPersonEmail).business_entities).headD ⟨[], .Person, []⟩)
     (by decide) (by decide)⟩

/-- Every retained master entity carries the canonical name of its
type. -/
theorem buildBE_master_name :
    ∀ (l : List (Text × EInfo)) (seen : List EntityType) (e : BusinessEntity),
      e ∈ buildBusinessEntities l seen → isMasterType e.type = true →
        e.name = etName e.type := by
  intro l
  induction l with
  | nil =>
    intro seen e he
    simp [buildBusinessEntities] at he
  | cons c cs ih =>
    intro seen e he hM
    rw [show buildBusinessEntities (c :: cs) seen =
          (if isMasterType c.2.type then
            (if c.2.type ∈ seen then buildBusinessEntities cs seen
             else mkMasterEntity c :: buildBusinessEntities cs (c.2.type :: seen))
          else mkGroupEntity c :: buildBusinessEntities cs seen) from rfl] at he
    by_cases hMc : isMasterType c.2.type
    · rw [if_pos hMc] at he
      by_cases hS : c.2.type ∈ seen
      · rw [if_pos hS] at he
        exact ih seen e he hM
      · rw [if_neg hS] at he
        rcases List.mem_cons.mp he with rfl | he2
        · rfl
        · exact ih _ e he2 hM
    · rw [if_neg hMc] at he
      rcases List.mem_cons.mp he with rfl | he2
      · exact absurd hM (by simpa using hMc)
      · exact ih seen e he2 hM

/-- A fold whose step fixes the accumulator on every list element is the
identity. -/
theorem foldl_id {α β : Type} (f : β → α → β) :
    ∀ (l : List α), (∀ a ∈ l, ∀ b, f b a = b) → ∀ b, l.foldl f b = b := by
  intro l
  induction l with
  | nil => intro _ b; rfl
  | cons x xs ih =>
    intro h b
    rw [List.foldl_cons, h x (List.mem_cons_self _ _) b]
    exact ih (fun a ha b => h a (List.mem_cons.mpr (Or.inr ha)) b) b

/-- Lookup fails when no entry has the key. -/
theorem lookupT_eq_none {β : Type} (m : List (Text × β)) (k : Text)
    (h : ∀ p ∈ m, p.1 ≠ k) : lookupT m k = none := by
  unfold lookupT
  have hf : m.find? (fun p => p.1 = k) = none := by
    rw [List.find?_eq_none]
    intro p hp
    simpa using h p hp
  rw [hf]
  rfl

/-- The Person arm of the custom-field computation, unfolded. -/
theorem step2CustomWithFR_person_eq (s1 : Step1Output) :
    step2CustomWithFR s1 .Person =
      (if orgReqsOf s1 ≠ [] then
        (orgReqsOf s1).foldl (orgInPersonBranchStep s1 (step2OotbFields .Person))
          ((personReqsOf s1).foldl (personBranchStep s1) [])
      else (personReqsOf s1).foldl (personBranchStep s1) []) := rfl

/-- The Organization arm of the custom-field computation, unfolded. -/
theorem step2CustomWithFR_org_eq (s1 : Step1Output) :
    step2CustomWithFR s1 .Organization =
      (if personReqsOf s1 ≠ [] then
        ootbPersonStandardFields.foldl (fun m f =>
          if f ∉ step2OotbFields .Organization then
            fieldFRFold s1.functional_requirements m f
          else m) ((orgReqsOf s1).foldl (orgBranchStep s1) [])
      else (orgReqsOf s1).foldl (orgBranchStep s1) []) := rfl

/-- C10 (amended): the extracted custom attributes are stored under the
name of the first Person-role entity, defaulting to the synthetic key
Constituent when no Person-role entity exists; in every run without a
Person-role entity the key Constituent matches no Person- or
Organization-role entity name consulted by the consolidation lookup, so
none of the keyword-extracted custom attributes enter the consolidated
entity mapping, whose custom-field table is empty. -/
theorem claim_C10_constituent_keying_amended (sourceFile t u : Text)
    (rows : List Row)
    (hnop : ¬ hasEntType (step1 sourceFile t rows) .Person) :
    ((step1 sourceFile t rows).attributes).map Prod.fst = ["Constituent".data]
    ∧ ∀ m ∈ (step2 (step1 sourceFile t rows) u).entity_mappings,
        m.custom_fields_with_fr = [] := by
  have hfind : (businessEntitiesOf rows).find? (fun e => e.type = .Person) = none := by
    rw [List.find?_eq_none]
    intro e he
    simpa using fun hP => hnop ⟨e, he, hP⟩
  have hmain : mainEntityName (businessEntitiesOf rows) = "Constituent".data := by
    unfold mainEntityName
    rw [hfind]
    rfl
  have hp : personReqsOf (step1 sourceFile t rows) = [] := by
    rw [personReqsOf, List.filter_eq_nil_iff]
    intro e he
    simpa using fun hP => hnop ⟨e, he, hP⟩
  constructor
  · show [mainEntityName (businessEntitiesOf rows)] = ["Constituent".data]
    rw [hmain]
  · have hlook : lookupT ((step1 sourceFile t rows).attributes) "Organization".data
        = none := by
      refine lookupT_eq_none _ _ ?_
      intro p hp2
      simp only [step1] at hp2
      rcases List.mem_singleton.mp hp2 with rfl
      simp only [hmain]
      decide
    have horgstep : ∀ req ∈ orgReqsOf (step1 sourceFile t rows), ∀ m,
        orgBranchStep (step1 sourceFile t rows) m req = m := by
      intro req hreq m
      have hmem := List.mem_filter.mp hreq
      have hty : req.type = .Organization := by simpa using hmem.2
      have hname : req.name = "Organization".data := by
        have hcan := buildBE_master_name _ [] req hmem.1 (by rw [hty]; rfl)
        rw [hty] at hcan
        exact hcan
      unfold orgBranchStep
      rw [hname, hlook]
    intro m hm
    simp only [step2] at hm
    unfold step2EntityMappings at hm
    cases hsel : step2Selected (step1 sourceFile t rows) with
    | none => rw [hsel] at hm; cases hm
    | some tt =>
      rw [hsel] at hm
      rcases List.mem_singleton.mp hm with rfl
      show step2CustomWithFR (step1 sourceFile t rows) tt = []
      unfold step2Selected at hsel
      by_cases ho : orgReqsOf (step1 sourceFile t rows) = []
      · rw [if_pos (Or.inr ⟨ho, hp⟩)] at hsel
        obtain rfl := Option.some.inj hsel
        rw [step2CustomWithFR_person_eq, if_neg (fun h => h ho), hp]
        rfl
      · rw [if_neg (by
            rintro (h | ⟨h1, _⟩)
            · exact h hp
            · exact ho h1), if_pos ho] at hsel
        obtain rfl := Option.some.inj hsel
        rw [step2CustomWithFR_org_eq, if_neg (fun h => h hp),
          foldl_id _ _ horgstep]

/-- Witness for C10 (amended): the Organization-only Fox run keys its
attributes under Constituent and produces a mapping with no custom
fields. -/
theorem claim_C10_constituent_keying_amended_witness :
    ((step1 [] [] rowsOrgOnlyCase).attributes).map Prod.fst = ["Constituent".data]
    ∧ (((step2 (step1 [] [] rowsOrgOnlyCase) []).entity_mappings).headD
        ⟨[], .Person, [], [], [], [], []⟩).custom_fields_with_fr = [] :=
  ⟨(claim_C10_constituent_keying_amended [] [] [] rowsOrgOnlyCase (by decide)).1,
   (claim_C10_constituent_keying_amended [] [] [] rowsOrgOnlyCase (by decide)).2
     (((step2 (step1 [] [] rowsOrgOnlyCase) []).entity_mappings).headD
       ⟨[], .Person, [], [], [], [], []⟩)
     (by decide)⟩

/-- Counterexample to C10 as stated: in the Constituent corpus no
Person-role entity exists, the attributes are keyed under Constituent,
and yet that key DOES equal the name of a discovered entity (the custom
field group Constituent), contradicting the claim that it matches no
discovered entity name. -/
theorem claim_C10_constituent_keying_counterexample :
    (¬ hasEntType (step1 [] [] rowsConstituentCase) .Person)
    ∧ ((step1 [] [] rowsConstituentCase).attributes).map Prod.fst
        = ["Constituent".data]
    ∧ ((step1 [] [] rowsConstituentCase).business_entities).map (fun e => e.name)
        = ["Constituent".data] :=
  ⟨by decide, by decide, by decide⟩
